import Mathlib

/-!
Verification of the `deepresearch` orchestration layer of this repository:
shallow embedding of `src/deepresearch/logging_manager.py` and
`src/deepresearch/enhanced_agentic.py`, together with a state machine
modelled from the specification for the orchestration core that the
wrapped framework provides (only its callers live in the repository).
-/

/-! ## Embedding of `logging_manager.py` -/

/-- Embeds `LogLevel` (logging_manager.py): the four log levels. -/
inductive LogLevel where
  | DEBUG
  | INFO
  | WARNING
  | ERROR
deriving DecidableEq, BEq

/-- Embeds `LogType` (logging_manager.py): the nine log categories. -/
inductive LogType where
  | MANAGER_DECISION
  | AGENT_RESPONSE
  | AGENT_REQUEST
  | TASK_PLANNING
  | TASK_REPLANNING
  | PROGRESS_LEDGER
  | FINAL_ANSWER
  | SYSTEM_MESSAGE
  | ERROR_MESSAGE
deriving DecidableEq, BEq

/-- A Python exception, reduced to its type name and its `str(e)` text. -/
structure PyExn where
  name : String
  msg : String
deriving DecidableEq

/-- Embeds the `LogEntry` dataclass (logging_manager.py). `uuid.uuid4()` is a
String id, `datetime.now()` a Nat tick, both supplied by the environment at
each `log` call; the `details` dict is modelled as key/value pairs whose
values are `Option String` (Python `None` becomes `none`). -/
structure LogEntry where
  id : String
  timestamp : Nat
  level : LogLevel
  log_type : LogType
  source : String
  message : String
  details : Option (List (String × Option String)) := none
  agent_name : Option String := none
  round_count : Option Nat := none
deriving DecidableEq

/-- Embeds the state of a `MagenticLoggingManager` instance: its session id,
its stored `logs` list and its registered `callbacks`. A callback is a
Python callable that may raise, hence `LogEntry → Except PyExn Unit`. The
stdlib `self.logger` only mirrors entries to process logging and carries no
state relevant here. -/
structure MagenticLoggingManager where
  session_id : String
  logs : List LogEntry
  callbacks : List (LogEntry → Except PyExn Unit)

/-- Embeds the callback loop of `MagenticLoggingManager.log`: each callback
is invoked inside `try`/`except`, so whether a callback returns normally or
raises, the loop records the outcome and continues with the next callback. -/
def runCallbacks : List (LogEntry → Except PyExn Unit) → LogEntry → List (Except PyExn Unit)
  | [], _ => []
  | cb :: rest, entry =>
    match cb entry with
    | .ok u => .ok u :: runCallbacks rest entry
    | .error e => .error e :: runCallbacks rest entry

/-- Embeds `MagenticLoggingManager.log`: build the entry (with the
environment-supplied uuid and timestamp `fresh`), append it to `logs`, run
every callback under `try`/`except`, and return the entry. The returned
trace lists each callback's outcome in order. -/
def MagenticLoggingManager.log (m : MagenticLoggingManager) (fresh : String × Nat)
    (level : LogLevel) (log_type : LogType) (source message : String)
    (details : Option (List (String × Option String)) := none)
    (agent_name : Option String := none) (round_count : Option Nat := none) :
    MagenticLoggingManager × LogEntry × List (Except PyExn Unit) :=
  let entry : LogEntry :=
    { id := fresh.1, timestamp := fresh.2, level := level, log_type := log_type,
      source := source, message := message, details := details,
      agent_name := agent_name, round_count := round_count }
  let m' := { m with logs := m.logs ++ [entry] }
  (m', entry, runCallbacks m.callbacks entry)

/-- Models the Python slice `l[-n:]` for a nonzero integer `n`: positive `n`
keeps the last `n` elements, negative `n` drops the first `-n` elements. -/
def pySliceLast (l : List LogEntry) (n : Int) : List LogEntry :=
  if 0 < n then l.drop (l.length - n.toNat) else l.drop (-n).toNat

/-- Embeds `MagenticLoggingManager.get_logs`. Python truthiness is kept: a
`LogLevel`/`LogType` enum member is always truthy, so those filters apply
whenever present; `if agent_name:` is false for the empty string, so an
empty-string agent filter is skipped; `if limit:` is false for `0`, so a
zero limit means no truncation. -/
def MagenticLoggingManager.get_logs (m : MagenticLoggingManager)
    (level : Option LogLevel := none) (log_type : Option LogType := none)
    (agent_name : Option String := none) (limit : Option Int := none) :
    List LogEntry :=
  let filtered_logs := m.logs
  let filtered_logs :=
    match level with
    | some lv => filtered_logs.filter (fun l => l.level == lv)
    | none => filtered_logs
  let filtered_logs :=
    match log_type with
    | some lt => filtered_logs.filter (fun l => l.log_type == lt)
    | none => filtered_logs
  let filtered_logs :=
    match agent_name with
    | some a => if a == "" then filtered_logs
                else filtered_logs.filter (fun l => l.agent_name == some a)
    | none => filtered_logs
  match limit with
  | some n => if n == 0 then filtered_logs else pySliceLast filtered_logs n
  | none => filtered_logs

/-- Embeds `MagenticLoggingManager.clear_logs`: empty the `logs` list, then
record the "Logs cleared" system message through `log` itself. -/
def MagenticLoggingManager.clear_logs (m : MagenticLoggingManager) (fresh : String × Nat) :
    MagenticLoggingManager × LogEntry × List (Except PyExn Unit) :=
  let m0 := { m with logs := [] }
  m0.log fresh .INFO .SYSTEM_MESSAGE "LoggingManager" "Logs cleared"

/-- Embeds `get_global_logging_manager`: the module-level variable
`_global_logging_manager` is the `Option MagenticLoggingManager` argument;
when it is `none` a fresh instance (environment-supplied, since its session
id comes from `uuid.uuid4()`) is stored and returned. Returns the manager
together with the updated global variable. -/
def get_global_logging_manager (freshManager : MagenticLoggingManager)
    (global_var : Option MagenticLoggingManager) :
    MagenticLoggingManager × Option MagenticLoggingManager :=
  match global_var with
  | none => (freshManager, some freshManager)
  | some m => (m, some m)

/-- Embeds `set_global_logging_manager`: overwrite the module-level variable. -/
def set_global_logging_manager (manager : MagenticLoggingManager)
    (_global_var : Option MagenticLoggingManager) : Option MagenticLoggingManager :=
  some manager

/-- Embeds `reset_global_logging_manager`: clear the module-level variable. -/
def reset_global_logging_manager
    (_global_var : Option MagenticLoggingManager) : Option MagenticLoggingManager :=
  none

/-! ## Embedding of `enhanced_agentic.py` -/

/-- A `ChatMessageContent`, reduced to its text content. -/
structure ChatMessageContent where
  content : String
deriving DecidableEq

/-- The `MagenticContext` fields the enhanced wrappers read: task, the
participant-name/description mapping, and the three counters. -/
structure MagenticContext where
  task : ChatMessageContent
  participant_descriptions : List (String × String)
  round_count : Nat
  stall_count : Nat
  reset_count : Nat
deriving DecidableEq

/-- The manager's task ledger: accumulated `facts` and the current `plan`. -/
structure TaskLedger where
  facts : ChatMessageContent
  plan : ChatMessageContent
deriving DecidableEq

/-- The internal state of the wrapped `StandardMagenticManager` that the
enhanced wrappers observe: its `task_ledger`, `None` before planning. -/
structure StandardMagenticManagerState where
  task_ledger : Option TaskLedger
deriving DecidableEq

/-- One entry of a progress ledger: an `answer` plus a free-text `reason`. -/
structure ProgressLedgerItem (α : Type) where
  answer : α
  reason : String
deriving DecidableEq

/-- The per-round `ProgressLedger`: three boolean judgments, the next
speaker's name, and the instruction or question to send. -/
structure ProgressLedger where
  is_request_satisfied : ProgressLedgerItem Bool
  is_in_loop : ProgressLedgerItem Bool
  is_progress_being_made : ProgressLedgerItem Bool
  next_speaker : ProgressLedgerItem String
  instruction_or_question : ProgressLedgerItem String
deriving DecidableEq

/-- Renders a Python bool as it would appear in a log payload. -/
def pyBoolStr (b : Bool) : String := cond b "True" "False"

/-- The type of the wrapped `StandardMagenticManager` operation a wrapper
delegates to via `super()`: it may read and update the manager's internal
state, and may raise. The framework's implementation is outside this
repository, so it is a parameter of each wrapper. -/
def BaseManagerOp (ρ : Type) :=
  StandardMagenticManagerState → MagenticContext →
    Except PyExn (StandardMagenticManagerState × ρ)

/-- Embeds `EnhancedMagenticManager.plan`: log the start, delegate to
`super().plan`, then log success (reading the updated `task_ledger`) and
return the base result, or log the error and re-raise it. `f1`, `f2` are
the environment-supplied uuid/timestamp pairs of the two log calls; the
`participants` key list is rendered as comma-separated text. -/
def EnhancedMagenticManager.plan (base : BaseManagerOp ChatMessageContent)
    (f1 f2 : String × Nat) (st : StandardMagenticManagerState)
    (lm : MagenticLoggingManager) (magentic_context : MagenticContext) :
    (StandardMagenticManagerState × MagenticLoggingManager) × Except PyExn ChatMessageContent :=
  let (lm1, _, _) := lm.log f1 .INFO .TASK_PLANNING "EnhancedMagenticManager"
    "Starting task planning"
    (some [("task", some magentic_context.task.content),
           ("participants", some (String.intercalate ", "
             (magentic_context.participant_descriptions.map Prod.fst))),
           ("round_count", some (toString magentic_context.round_count))])
    none (some magentic_context.round_count)
  match base st magentic_context with
  | .ok (st', result) =>
    let (lm2, _, _) := lm1.log f2 .INFO .TASK_PLANNING "EnhancedMagenticManager"
      "Task planning completed successfully"
      (some [("task_ledger_facts", Option.map (fun tl => tl.facts.content) st'.task_ledger),
             ("task_ledger_plan", Option.map (fun tl => tl.plan.content) st'.task_ledger)])
      none (some magentic_context.round_count)
    ((st', lm2), .ok result)
  | .error e =>
    let (lm2, _, _) := lm1.log f2 .ERROR .ERROR_MESSAGE "EnhancedMagenticManager"
      ("Error during task planning: " ++ e.msg)
      (some [("error", some e.msg), ("error_type", some e.name)])
      none (some magentic_context.round_count)
    ((st, lm2), .error e)

/-- Embeds `EnhancedMagenticManager.replan`: same wrapper shape as `plan`,
with the replanning log texts and counter payload. -/
def EnhancedMagenticManager.replan (base : BaseManagerOp ChatMessageContent)
    (f1 f2 : String × Nat) (st : StandardMagenticManagerState)
    (lm : MagenticLoggingManager) (magentic_context : MagenticContext) :
    (StandardMagenticManagerState × MagenticLoggingManager) × Except PyExn ChatMessageContent :=
  let (lm1, _, _) := lm.log f1 .INFO .TASK_REPLANNING "EnhancedMagenticManager"
    ("Starting task replanning (stall_count: " ++ toString magentic_context.stall_count ++ ")")
    (some [("stall_count", some (toString magentic_context.stall_count)),
           ("reset_count", some (toString magentic_context.reset_count)),
           ("round_count", some (toString magentic_context.round_count))])
    none (some magentic_context.round_count)
  match base st magentic_context with
  | .ok (st', result) =>
    let (lm2, _, _) := lm1.log f2 .INFO .TASK_REPLANNING "EnhancedMagenticManager"
      "Task replanning completed successfully"
      (some [("updated_facts", Option.map (fun tl => tl.facts.content) st'.task_ledger),
             ("updated_plan", Option.map (fun tl => tl.plan.content) st'.task_ledger)])
      none (some magentic_context.round_count)
    ((st', lm2), .ok result)
  | .error e =>
    let (lm2, _, _) := lm1.log f2 .ERROR .ERROR_MESSAGE "EnhancedMagenticManager"
      ("Error during task replanning: " ++ e.msg)
      (some [("error", some e.msg), ("error_type", some e.name)])
      none (some magentic_context.round_count)
    ((st, lm2), .error e)

/-- Embeds `EnhancedMagenticManager.create_progress_ledger`: log at DEBUG,
delegate, then log the ledger's answers and reasons (the nested
`ledger_reasons` dict is flattened into suffixed keys) and return the base
result, or log the error and re-raise it. -/
def EnhancedMagenticManager.create_progress_ledger (base : BaseManagerOp ProgressLedger)
    (f1 f2 : String × Nat) (st : StandardMagenticManagerState)
    (lm : MagenticLoggingManager) (magentic_context : MagenticContext) :
    (StandardMagenticManagerState × MagenticLoggingManager) × Except PyExn ProgressLedger :=
  let (lm1, _, _) := lm.log f1 .DEBUG .PROGRESS_LEDGER "EnhancedMagenticManager"
    "Creating progress ledger"
    (some [("round_count", some (toString magentic_context.round_count))])
    none (some magentic_context.round_count)
  match base st magentic_context with
  | .ok (st', result) =>
    let (lm2, _, _) := lm1.log f2 .INFO .PROGRESS_LEDGER "EnhancedMagenticManager"
      "Progress ledger created"
      (some [("is_request_satisfied", some (pyBoolStr result.is_request_satisfied.answer)),
             ("is_in_loop", some (pyBoolStr result.is_in_loop.answer)),
             ("is_progress_being_made", some (pyBoolStr result.is_progress_being_made.answer)),
             ("next_speaker", some result.next_speaker.answer),
             ("instruction_or_question", some result.instruction_or_question.answer),
             ("ledger_reasons.request_satisfied", some result.is_request_satisfied.reason),
             ("ledger_reasons.in_loop", some result.is_in_loop.reason),
             ("ledger_reasons.progress_being_made", some result.is_progress_being_made.reason),
             ("ledger_reasons.next_speaker", some result.next_speaker.reason),
             ("ledger_reasons.instruction", some result.instruction_or_question.reason)])
      none (some magentic_context.round_count)
    ((st', lm2), .ok result)
  | .error e =>
    let (lm2, _, _) := lm1.log f2 .ERROR .ERROR_MESSAGE "EnhancedMagenticManager"
      ("Error creating progress ledger: " ++ e.msg)
      (some [("error", some e.msg), ("error_type", some e.name)])
      none (some magentic_context.round_count)
    ((st, lm2), .error e)

/-- Embeds `EnhancedMagenticManager.prepare_final_answer`: same wrapper
shape, with the final-answer log texts. -/
def EnhancedMagenticManager.prepare_final_answer (base : BaseManagerOp ChatMessageContent)
    (f1 f2 : String × Nat) (st : StandardMagenticManagerState)
    (lm : MagenticLoggingManager) (magentic_context : MagenticContext) :
    (StandardMagenticManagerState × MagenticLoggingManager) × Except PyExn ChatMessageContent :=
  let (lm1, _, _) := lm.log f1 .INFO .FINAL_ANSWER "EnhancedMagenticManager"
    "Preparing final answer"
    (some [("round_count", some (toString magentic_context.round_count))])
    none (some magentic_context.round_count)
  match base st magentic_context with
  | .ok (st', result) =>
    let (lm2, _, _) := lm1.log f2 .INFO .FINAL_ANSWER "EnhancedMagenticManager"
      "Final answer prepared"
      (some [("final_answer", some result.content),
             ("round_count", some (toString magentic_context.round_count))])
      none (some magentic_context.round_count)
    ((st', lm2), .ok result)
  | .error e =>
    let (lm2, _, _) := lm1.log f2 .ERROR .ERROR_MESSAGE "EnhancedMagenticManager"
      ("Error preparing final answer: " ++ e.msg)
      (some [("error", some e.msg), ("error_type", some e.name)])
      none (some magentic_context.round_count)
    ((st, lm2), .error e)

/-- A `MagenticRequestMessage`, reduced to the target agent name the
handler inspects. -/
structure MagenticRequestMessage where
  agent_name : String
deriving DecidableEq

/-- Embeds `EnhancedMagenticAgentActor._handle_request_message`. The base
handler `super()._handle_request_message` (which invokes the participant
and publishes the Response) lives outside this repository, so it is a
parameter producing an abstract effect `β`; `none` in the result means it
was never invoked. The wrapper returns immediately when the request's
target name differs from this actor's agent name — before any log call —
and otherwise logs the request and delegates. -/
def EnhancedMagenticAgentActor.handle_request_message {β : Type}
    (superHandle : MagenticRequestMessage → β)
    (agent_name agent_description : String) (f1 : String × Nat)
    (lm : MagenticLoggingManager) (message : MagenticRequestMessage) :
    MagenticLoggingManager × Option β :=
  if message.agent_name ≠ agent_name then (lm, none)
  else
    let (lm1, _, _) := lm.log f1 .INFO .AGENT_REQUEST "EnhancedMagenticAgentActor"
      ("Agent " ++ agent_name ++ " received request")
      (some [("agent_name", some agent_name),
             ("agent_description", some agent_description)])
      (some agent_name) none
    (lm1, some (superHandle message))

/-- Embeds the constructor line shared by `EnhancedMagenticManager`,
`EnhancedMagenticManagerActor`, `EnhancedMagenticAgentActor` and
`EnhancedMagenticOrchestration`:
`self.logging_manager = logging_manager or get_global_logging_manager()`.
A supplied manager instance is truthy and used as-is, leaving the global
variable untouched; `None` is falsy, so the process-wide global manager is
consulted and lazily created. Returns the selected manager together with
the updated global variable. -/
def enhancedLoggingManagerInit (freshManager : MagenticLoggingManager)
    (logging_manager : Option MagenticLoggingManager)
    (global_var : Option MagenticLoggingManager) :
    MagenticLoggingManager × Option MagenticLoggingManager :=
  match logging_manager with
  | some m => (m, global_var)
  | none => get_global_logging_manager freshManager global_var

/-! ## State machine of the orchestration core

The planning/inner-loop/outer-loop state machine itself belongs to the
wrapped framework: the repository only subclasses its actors, so the
machine is modelled from the specification (§4.1, §7). -/

/-- Modelled from the spec: the configured policy values missing from src/
— the stall maximum, the reset maximum M, and the round budget (§4.1, §9). -/
structure OrchestrationConfig where
  stall_max : Nat
  reset_max : Nat
  round_max : Nat
deriving DecidableEq

/-- Modelled from the spec: the Manager Actor's state-machine phases (§4.1):
`Idle → Planning → InnerLoop → (OuterReset → Planning-like replan) →
FinalAnswer`. The run starts at Planning upon Start. -/
inductive Phase where
  | Planning
  | InnerLoop
  | OuterReset
  | FinalAnswer
deriving DecidableEq

/-- Modelled from the spec: the OrchestrationContext (§3) — task,
transcript, and the round/stall/reset counters, owned by the Manager
Actor. -/
structure OrchestrationContext where
  task : String
  transcript : List String
  round_count : Nat
  stall_count : Nat
  reset_count : Nat
deriving DecidableEq

/-- A state of the manager's state machine: current phase plus context. -/
structure MachineState where
  phase : Phase
  ctx : OrchestrationContext
deriving DecidableEq

/-- Modelled from the spec: the manager's judgment operations missing from
src/ — `plan`/`replan` opening messages, the per-round `ProgressLedger`
judgment, and the awaited agent response (§4.1, §6). They are arbitrary
functions of the context, so every theorem below holds for any manager
behavior, including one that never reports satisfaction or progress. -/
structure ManagerOracle where
  planMessage : OrchestrationContext → String
  replanMessage : OrchestrationContext → String
  progressLedger : OrchestrationContext → ProgressLedger
  agentResponse : OrchestrationContext → ProgressLedger → String

/-- Modelled from the spec: one transition of the state machine (§4.1).
Planning appends the opening message and enters the inner loop. An inner
round judges the ledger: satisfaction ends the run; a stall past the stall
maximum enters OuterReset; past the round budget the run is forced to
FinalAnswer; otherwise the round counter advances and the awaited response
is appended. OuterReset increments `reset_count`; past the reset maximum
the run is forced to FinalAnswer, otherwise the counters are cleared, the
replan message appended, and the inner loop re-entered. -/
def stepMachine (cfg : OrchestrationConfig) (oracle : ManagerOracle)
    (s : MachineState) : MachineState :=
  match s.phase with
  | .Planning =>
    ⟨.InnerLoop, { s.ctx with transcript := s.ctx.transcript ++ [oracle.planMessage s.ctx] }⟩
  | .InnerLoop =>
    let L := oracle.progressLedger s.ctx
    if L.is_request_satisfied.answer then ⟨.FinalAnswer, s.ctx⟩
    else
      let stall' := if L.is_in_loop.answer || !L.is_progress_being_made.answer
                    then s.ctx.stall_count + 1 else 0
      if cfg.stall_max < stall' then ⟨.OuterReset, { s.ctx with stall_count := stall' }⟩
      else if cfg.round_max < s.ctx.round_count + 1 then
        ⟨.FinalAnswer,
          { s.ctx with
            stall_count := stall',
            round_count := s.ctx.round_count + 1 }⟩
      else
        ⟨.InnerLoop,
          { s.ctx with
            stall_count := stall',
            round_count := s.ctx.round_count + 1,
            transcript := s.ctx.transcript ++ [oracle.agentResponse s.ctx L] }⟩
  | .OuterReset =>
    if cfg.reset_max < s.ctx.reset_count + 1 then
      ⟨.FinalAnswer, { s.ctx with reset_count := s.ctx.reset_count + 1 }⟩
    else
      ⟨.InnerLoop,
        { s.ctx with
          reset_count := s.ctx.reset_count + 1,
          stall_count := 0,
          round_count := 0,
          transcript := s.ctx.transcript ++ [oracle.replanMessage s.ctx] }⟩
  | .FinalAnswer => s

/-- Iterates the state machine `n` steps from `s`. -/
def runSteps (cfg : OrchestrationConfig) (oracle : ManagerOracle) :
    Nat → MachineState → MachineState
  | 0, s => s
  | n + 1, s => stepMachine cfg oracle (runSteps cfg oracle n s)

/-- Modelled from the spec: the state reached on receiving Start(task) —
the Planning phase with zeroed counters and a task-only transcript (§4.1). -/
def startState (task : String) : MachineState :=
  ⟨.Planning, { task := task, transcript := [task],
                round_count := 0, stall_count := 0, reset_count := 0 }⟩

/-- States the machine keeps within budget: the round counter respects the
round budget outside a forced stop, and the reset counter respects the
reset maximum until the forced FinalAnswer degrade. -/
def MachineInv (cfg : OrchestrationConfig) (s : MachineState) : Prop :=
  (s.phase = .Planning → s.ctx.round_count ≤ cfg.round_max ∧ s.ctx.reset_count ≤ cfg.reset_max) ∧
  (s.phase = .InnerLoop → s.ctx.round_count ≤ cfg.round_max ∧ s.ctx.reset_count ≤ cfg.reset_max) ∧
  (s.phase = .OuterReset → s.ctx.reset_count ≤ cfg.reset_max)

/-- A termination measure for the state machine: lexicographic in the
remaining reset budget, the phase, and the remaining round budget. -/
def machineMeasure (cfg : OrchestrationConfig) (s : MachineState) : Nat :=
  match s.phase with
  | .FinalAnswer => 0
  | .OuterReset =>
    (cfg.round_max + 3) * (cfg.reset_max + 1 - s.ctx.reset_count) + 1
  | .InnerLoop =>
    (cfg.round_max + 3) * (cfg.reset_max + 1 - s.ctx.reset_count) + 2
      + (cfg.round_max + 1 - s.ctx.round_count)
  | .Planning =>
    (cfg.round_max + 3) * (cfg.reset_max + 1 - s.ctx.reset_count) + 3
      + (cfg.round_max + 1 - s.ctx.round_count)

/-- An explicit step bound dominating the measure of every state. -/
def machineBound (cfg : OrchestrationConfig) : Nat :=
  (cfg.round_max + 3) * (cfg.reset_max + 1) + cfg.round_max + 4

/-! ## Fixtures and specification-side predicates used by the theorems -/

/-- Follows the amended C8 claim's words: an entry passes when it matches
every supplied filter, except that a supplied empty-string agent-name
filter is ignored (Python truthiness of `if agent_name:`). -/
def matchesFilters (level : Option LogLevel) (log_type : Option LogType)
    (agent_name : Option String) (l : LogEntry) : Bool :=
  (match level with
   | some lv => l.level == lv
   | none => true)
  && (match log_type with
      | some lt => l.log_type == lt
      | none => true)
  && (match agent_name with
      | some a => if a == "" then true else l.agent_name == some a
      | none => true)

/-- Follows the amended C8 claim's words: no limit or a zero limit keeps
every filtered entry; a positive limit keeps the last `limit` entries; a
negative limit drops that many entries from the front (Python slicing). -/
def limitTruncate (lim : Option Int) (l : List LogEntry) : List LogEntry :=
  match lim with
  | none => l
  | some n =>
    if n = 0 then l
    else if 0 < n then l.drop (l.length - n.toNat) else l.drop (-n).toNat

/-- A manager judgment that never reports satisfaction or progress — the
stub the termination guarantee is exercised against. -/
def alwaysStallingOracle : ManagerOracle where
  planMessage := fun _ => "plan"
  replanMessage := fun _ => "replan"
  progressLedger := fun _ =>
    { is_request_satisfied := ⟨false, "not satisfied"⟩
      is_in_loop := ⟨true, "repeating"⟩
      is_progress_being_made := ⟨false, "no progress"⟩
      next_speaker := ⟨"worker", "only participant"⟩
      instruction_or_question := ⟨"continue", "keep going"⟩ }
  agentResponse := fun _ _ => "response"

/-- A concrete stored log entry used by the concrete-input theorems. -/
def sampleEntry : LogEntry :=
  { id := "id-1", timestamp := 0, level := .INFO, log_type := .AGENT_RESPONSE,
    source := "agent", message := "hello", details := none,
    agent_name := some "writer", round_count := none }

/-- A concrete logging manager holding exactly `sampleEntry`. -/
def sampleManager : MagenticLoggingManager :=
  { session_id := "session-1", logs := [sampleEntry], callbacks := [] }

/-- A concrete fresh logging manager for the global-variable theorems. -/
def freshManager0 : MagenticLoggingManager :=
  { session_id := "g0", logs := [], callbacks := [] }

/-- A concrete base operation that always raises, used to exercise the
error path of the enhanced manager operations. -/
def failingBase : BaseManagerOp ChatMessageContent :=
  fun _ _ => .error ⟨"ValueError", "boom"⟩

/-- A concrete base operation for progress ledgers that always raises. -/
def failingLedgerBase : BaseManagerOp ProgressLedger :=
  fun _ _ => .error ⟨"ValueError", "boom"⟩

/-- A concrete base operation that succeeds with a fixed answer and sets
the task ledger. -/
def okBase : BaseManagerOp ChatMessageContent :=
  fun _ _ => .ok (⟨some ⟨⟨"facts"⟩, ⟨"plan"⟩⟩⟩, ⟨"answer"⟩)

/-- A concrete magentic context for the concrete-input theorems. -/
def sampleContext : MagenticContext :=
  { task := ⟨"write one sentence"⟩, participant_descriptions := [("writer", "writes")],
    round_count := 0, stall_count := 0, reset_count := 0 }

/-- A small configuration: stall maximum 1, reset maximum 1, round budget 2. -/
def tinyConfig : OrchestrationConfig := ⟨1, 1, 2⟩

/-- A roomy configuration: stall maximum 5, reset maximum 3, round budget 10. -/
def roomyConfig : OrchestrationConfig := ⟨5, 3, 10⟩

/-- A concrete inner-loop state whose reset counter sits at the maximum of
`tinyConfig`. -/
def maxedInnerState : MachineState :=
  ⟨.InnerLoop, { task := "t", transcript := ["t"], round_count := 0,
                 stall_count := 0, reset_count := 1 }⟩

/-- A concrete state entering outer-loop reset handling. -/
def outerResetState : MachineState :=
  ⟨.OuterReset, { task := "t", transcript := ["t"], round_count := 2,
                  stall_count := 6, reset_count := 0 }⟩

/-- A concrete inner-loop state with zeroed counters. -/
def innerLoopState : MachineState :=
  ⟨.InnerLoop, { task := "t", transcript := ["t"], round_count := 0,
                 stall_count := 0, reset_count := 0 }⟩

/-! ## Helper lemmas -/

lemma stepMachine_final_absorb (cfg : OrchestrationConfig) (oracle : ManagerOracle)
    (s : MachineState) (h : s.phase = .FinalAnswer) : stepMachine cfg oracle s = s := by
  obtain ⟨p, c⟩ := s
  cases p <;> simp_all [stepMachine]

lemma runSteps_final_absorb (cfg : OrchestrationConfig) (oracle : ManagerOracle)
    (n : Nat) (s : MachineState) (h : s.phase = .FinalAnswer) :
    runSteps cfg oracle n s = s := by
  induction n with
  | zero => rfl
  | succ n ih => rw [runSteps, ih, stepMachine_final_absorb cfg oracle s h]

lemma stepMachine_reset_bounds (cfg : OrchestrationConfig) (oracle : ManagerOracle)
    (s : MachineState) :
    s.ctx.reset_count ≤ (stepMachine cfg oracle s).ctx.reset_count ∧
      (stepMachine cfg oracle s).ctx.reset_count ≤ s.ctx.reset_count + 1 := by
  obtain ⟨p, c⟩ := s
  cases p <;> simp only [stepMachine] <;> repeat' split
  all_goals simp

lemma machineInv_step (cfg : OrchestrationConfig) (oracle : ManagerOracle)
    (s : MachineState) (h : MachineInv cfg s) : MachineInv cfg (stepMachine cfg oracle s) := by
  obtain ⟨hP, hI, hO⟩ := h
  obtain ⟨p, c⟩ := s
  cases p
  case Planning =>
    have hb := hP rfl
    simp only [stepMachine, MachineInv]
    refine ⟨fun hx => by simp at hx, fun _ => ?_, fun hx => by simp at hx⟩
    exact ⟨hb.1, hb.2⟩
  case InnerLoop =>
    have hb := hI rfl
    simp only [stepMachine, MachineInv]
    repeat' split
    all_goals refine ⟨fun hx => ?_, fun hx => ?_, fun hx => ?_⟩
    all_goals simp_all
  case OuterReset =>
    have hb := hO rfl
    simp only [stepMachine, MachineInv]
    repeat' split
    all_goals refine ⟨fun hx => ?_, fun hx => ?_, fun hx => ?_⟩
    all_goals simp_all
  case FinalAnswer =>
    simp only [stepMachine, MachineInv]
    exact ⟨fun hx => by simp at hx, fun hx => by simp at hx, fun hx => by simp at hx⟩

lemma machineInv_runSteps (cfg : OrchestrationConfig) (oracle : ManagerOracle)
    (n : Nat) (s : MachineState) (h : MachineInv cfg s) :
    MachineInv cfg (runSteps cfg oracle n s) := by
  induction n with
  | zero => exact h
  | succ n ih => exact machineInv_step cfg oracle _ ih

lemma runSteps_reset_mono (cfg : OrchestrationConfig) (oracle : ManagerOracle)
    (n : Nat) (s : MachineState) :
    s.ctx.reset_count ≤ (runSteps cfg oracle n s).ctx.reset_count := by
  induction n with
  | zero => exact Nat.le_refl _
  | succ n ih => exact Nat.le_trans ih (stepMachine_reset_bounds cfg oracle _).1

lemma machineMeasure_pos (cfg : OrchestrationConfig) (s : MachineState)
    (h : s.phase ≠ .FinalAnswer) : 0 < machineMeasure cfg s := by
  obtain ⟨p, c⟩ := s
  cases p <;> simp_all [machineMeasure]

lemma machineMeasure_step_lt (cfg : OrchestrationConfig) (oracle : ManagerOracle)
    (s : MachineState) (hinv : MachineInv cfg s) (h : s.phase ≠ .FinalAnswer) :
    machineMeasure cfg (stepMachine cfg oracle s) < machineMeasure cfg s := by
  obtain ⟨hP, hI, hO⟩ := hinv
  obtain ⟨p, c⟩ := s
  cases p
  case Planning =>
    simp only [stepMachine, machineMeasure]
    omega
  case InnerLoop =>
    have hb := hI rfl
    simp only at hb
    simp only [stepMachine]
    repeat' split
    all_goals simp only [machineMeasure]
    all_goals omega
  case OuterReset =>
    have hb := hO rfl
    simp only at hb
    simp only [stepMachine]
    split
    · simp only [machineMeasure]; omega
    · simp only [machineMeasure]
      have hr : cfg.reset_max + 1 - c.reset_count
          = (cfg.reset_max + 1 - (c.reset_count + 1)) + 1 := by omega
      rw [hr, Nat.mul_succ]
      omega
  case FinalAnswer => exact absurd rfl h

lemma machineMeasure_le_bound (cfg : OrchestrationConfig) (s : MachineState) :
    machineMeasure cfg s ≤ machineBound cfg := by
  obtain ⟨p, c⟩ := s
  have h1 : (cfg.round_max + 3) * (cfg.reset_max + 1 - c.reset_count)
      ≤ (cfg.round_max + 3) * (cfg.reset_max + 1) :=
    Nat.mul_le_mul_left _ (by omega)
  cases p <;> simp only [machineMeasure, machineBound] <;> omega

lemma runSteps_shift (cfg : OrchestrationConfig) (oracle : ManagerOracle)
    (n : Nat) (s : MachineState) :
    runSteps cfg oracle (n + 1) s = runSteps cfg oracle n (stepMachine cfg oracle s) := by
  induction n with
  | zero => rfl
  | succ n ih => rw [runSteps, ih, runSteps]

lemma runSteps_terminates (cfg : OrchestrationConfig) (oracle : ManagerOracle) :
    ∀ (n : Nat) (s : MachineState), MachineInv cfg s → machineMeasure cfg s ≤ n →
      (runSteps cfg oracle n s).phase = .FinalAnswer := by
  intro n
  induction n with
  | zero =>
    intro s _ hle
    by_contra hne
    have := machineMeasure_pos cfg s hne
    omega
  | succ n ih =>
    intro s hinv hle
    by_cases hp : s.phase = .FinalAnswer
    · rw [runSteps_final_absorb cfg oracle _ s hp]; exact hp
    · rw [runSteps_shift]
      exact ih (stepMachine cfg oracle s) (machineInv_step cfg oracle s hinv)
        (by have := machineMeasure_step_lt cfg oracle s hinv hp; omega)

lemma no_reset_step_of_max (cfg : OrchestrationConfig) (oracle : ManagerOracle)
    (s : MachineState) (hinv : MachineInv cfg s)
    (hr : cfg.reset_max ≤ s.ctx.reset_count) :
    ¬ (s.phase = .OuterReset ∧ (stepMachine cfg oracle s).phase = .InnerLoop) := by
  rintro ⟨h1, h2⟩
  have hO := hinv.2.2 h1
  obtain ⟨p, c⟩ := s
  cases p
  case Planning => exact Phase.noConfusion h1
  case InnerLoop => exact Phase.noConfusion h1
  case FinalAnswer => exact Phase.noConfusion h1
  case OuterReset =>
    simp only at hO hr
    simp only [stepMachine] at h2
    split at h2
    · exact Phase.noConfusion h2
    · rename_i hguard
      omega

lemma runCallbacks_eq_map (cbs : List (LogEntry → Except PyExn Unit)) (entry : LogEntry) :
    runCallbacks cbs entry = cbs.map (fun cb => cb entry) := by
  induction cbs with
  | nil => rfl
  | cons cb rest ih => cases h : cb entry <;> simp [runCallbacks, h, ih]

/-! ## Claim theorems -/

/-- C5: every call to `MagenticLoggingManager.log` appends exactly one
entry to the stored log list and returns that entry; every registered
callback is invoked with that same entry, a raising callback neither
propagates to the caller (the operation is total) nor prevents the
remaining callbacks from running, and the callback list itself is
untouched. -/
theorem c5_log_appends_one_entry_and_runs_all_callbacks :
    ∀ (m : MagenticLoggingManager) (fresh : String × Nat) (level : LogLevel)
      (log_type : LogType) (source message : String)
      (details : Option (List (String × Option String)))
      (agent_name : Option String) (round_count : Option Nat),
      (m.log fresh level log_type source message details agent_name round_count).1.logs
          = m.logs ++ [(m.log fresh level log_type source message details agent_name round_count).2.1]
      ∧ (m.log fresh level log_type source message details agent_name round_count).1.callbacks
          = m.callbacks
      ∧ (m.log fresh level log_type source message details agent_name round_count).1.session_id
          = m.session_id
      ∧ (m.log fresh level log_type source message details agent_name round_count).2.2
          = m.callbacks.map
              (fun cb => cb (m.log fresh level log_type source message details agent_name round_count).2.1)
      ∧ (m.log fresh level log_type source message details agent_name round_count).2.2.length
          = m.callbacks.length := by
  intro m fresh level lt src msg d an rc
  refine ⟨rfl, rfl, rfl, runCallbacks_eq_map _ _, ?_⟩
  show (runCallbacks m.callbacks _).length = _
  rw [runCallbacks_eq_map]
  exact List.length_map _ _

/-- C9: after `clear_logs` the stored log list is exactly the single
INFO-level system entry recording that the logs were cleared. -/
theorem c9_clear_logs_keeps_exactly_clear_notice :
    ∀ (m : MagenticLoggingManager) (fresh : String × Nat),
      (m.clear_logs fresh).1.logs = [(m.clear_logs fresh).2.1]
      ∧ (m.clear_logs fresh).2.1.level = .INFO
      ∧ (m.clear_logs fresh).2.1.log_type = .SYSTEM_MESSAGE
      ∧ (m.clear_logs fresh).2.1.source = "LoggingManager"
      ∧ (m.clear_logs fresh).2.1.message = "Logs cleared" := by
  intro m fresh
  exact ⟨rfl, rfl, rfl, rfl, rfl⟩

/-- C10: `get_global_logging_manager` lazily creates the global manager on
first use and is idempotent — a second call returns the very manager the
first call stored, whatever fresh instance the environment would supply;
after `set_global_logging_manager m` it returns exactly `m`, and after
`reset_global_logging_manager` it creates afresh. -/
theorem c10_global_manager_idempotent :
    ∀ (freshA freshB m : MagenticLoggingManager) (g : Option MagenticLoggingManager),
      get_global_logging_manager freshB (get_global_logging_manager freshA g).2
          = get_global_logging_manager freshA g
      ∧ (get_global_logging_manager freshA g).2
          = some (get_global_logging_manager freshA g).1
      ∧ get_global_logging_manager freshA (set_global_logging_manager m g) = (m, some m)
      ∧ get_global_logging_manager freshA (reset_global_logging_manager g)
          = (freshA, some freshA) := by
  intro freshA freshB m g
  cases g <;> exact ⟨rfl, rfl, rfl, rfl⟩

/-- C4 counterexample: constructing an enhanced component without a
logging manager is not a no-op — the constructor consults
`get_global_logging_manager`, which creates and stores a process-wide
default manager and hands it to the component. -/
theorem c4_counterexample_global_default_created :
    (enhancedLoggingManagerInit freshManager0 none none).2 ≠ none
    ∧ (enhancedLoggingManagerInit freshManager0 none none).1 = freshManager0 := by
  exact ⟨by simp [enhancedLoggingManagerInit, get_global_logging_manager], rfl⟩

/-- C4 amended: when a logging manager is supplied it is used as-is and the
global variable is untouched; when none is supplied the constructor falls
back to the process-wide global manager, lazily creating and storing one
if the global variable is empty. -/
theorem c4_amended_fallback_to_global :
    ∀ (freshM m : MagenticLoggingManager) (g : Option MagenticLoggingManager),
      enhancedLoggingManagerInit freshM (some m) g = (m, g)
      ∧ enhancedLoggingManagerInit freshM none (some m) = (m, some m)
      ∧ enhancedLoggingManagerInit freshM none none = (freshM, some freshM) := by
  intro freshM m g
  exact ⟨rfl, rfl, rfl⟩

/-- C2: a Request whose target agent name differs from the actor's own name
is ignored outright — the handler returns with the logging manager
unchanged (no log entry) and without consulting the base handler, so the
participant is never invoked and no Response is published, whatever the
base handler would do. -/
theorem c2_mismatched_request_ignored :
    ∀ (β : Type) (superHandle : MagenticRequestMessage → β)
      (agent_name agent_description : String) (f1 : String × Nat)
      (lm : MagenticLoggingManager) (message : MagenticRequestMessage),
      message.agent_name ≠ agent_name →
      EnhancedMagenticAgentActor.handle_request_message superHandle agent_name
        agent_description f1 lm message = (lm, none) := by
  intro β sh an ad f1 lm msg h
  simp [EnhancedMagenticAgentActor.handle_request_message, h]

/-- C2 witness: a request targeted at "bob" is ignored by actor "alice". -/
theorem c2_mismatched_request_ignored_witness :
    EnhancedMagenticAgentActor.handle_request_message (fun _ => (0 : Nat)) "alice" "writes"
      ("id-2", 1) sampleManager ⟨"bob"⟩ = (sampleManager, none) :=
  c2_mismatched_request_ignored Nat (fun _ => 0) "alice" "writes" ("id-2", 1)
    sampleManager ⟨"bob"⟩ (by decide)

lemma enhanced_plan_refines (base : BaseManagerOp ChatMessageContent)
    (f1 f2 : String × Nat) (st : StandardMagenticManagerState)
    (lm : MagenticLoggingManager) (mc : MagenticContext) :
    (∀ st' v, base st mc = .ok (st', v) →
        (EnhancedMagenticManager.plan base f1 f2 st lm mc).2 = .ok v
        ∧ (EnhancedMagenticManager.plan base f1 f2 st lm mc).1.1 = st')
    ∧ (∀ e, base st mc = .error e →
        (EnhancedMagenticManager.plan base f1 f2 st lm mc).2 = .error e
        ∧ (EnhancedMagenticManager.plan base f1 f2 st lm mc).1.1 = st)
    ∧ (EnhancedMagenticManager.plan base f1 f2 st lm mc).1.2.callbacks = lm.callbacks
    ∧ (EnhancedMagenticManager.plan base f1 f2 st lm mc).1.2.session_id = lm.session_id
    ∧ ∃ tail, (EnhancedMagenticManager.plan base f1 f2 st lm mc).1.2.logs
        = lm.logs ++ tail := by
  cases hb : base st mc with
  | ok p =>
    obtain ⟨st', v⟩ := p
    refine ⟨fun s2 v2 h2 => ?_, fun e2 h2 => ?_, ?_, ?_, ?_⟩
    · simp only [Except.ok.injEq, Prod.mk.injEq] at h2
      obtain ⟨h4, h5⟩ := h2
      subst h4; subst h5
      refine ⟨?_, ?_⟩ <;> simp [EnhancedMagenticManager.plan, MagenticLoggingManager.log, hb]
    · exact Except.noConfusion h2
    · simp [EnhancedMagenticManager.plan, MagenticLoggingManager.log, hb]
    · simp [EnhancedMagenticManager.plan, MagenticLoggingManager.log, hb]
    · simp only [EnhancedMagenticManager.plan, MagenticLoggingManager.log, hb]
      exact ⟨_, List.append_assoc _ _ _⟩
  | error e =>
    refine ⟨fun s2 v2 h2 => ?_, fun e2 h2 => ?_, ?_, ?_, ?_⟩
    · exact Except.noConfusion h2
    · injection h2 with h3
      subst h3
      refine ⟨?_, ?_⟩ <;> simp [EnhancedMagenticManager.plan, MagenticLoggingManager.log, hb]
    · simp [EnhancedMagenticManager.plan, MagenticLoggingManager.log, hb]
    · simp [EnhancedMagenticManager.plan, MagenticLoggingManager.log, hb]
    · simp only [EnhancedMagenticManager.plan, MagenticLoggingManager.log, hb]
      exact ⟨_, List.append_assoc _ _ _⟩

lemma enhanced_replan_refines (base : BaseManagerOp ChatMessageContent)
    (f1 f2 : String × Nat) (st : StandardMagenticManagerState)
    (lm : MagenticLoggingManager) (mc : MagenticContext) :
    (∀ st' v, base st mc = .ok (st', v) →
        (EnhancedMagenticManager.replan base f1 f2 st lm mc).2 = .ok v
        ∧ (EnhancedMagenticManager.replan base f1 f2 st lm mc).1.1 = st')
    ∧ (∀ e, base st mc = .error e →
        (EnhancedMagenticManager.replan base f1 f2 st lm mc).2 = .error e
        ∧ (EnhancedMagenticManager.replan base f1 f2 st lm mc).1.1 = st)
    ∧ (EnhancedMagenticManager.replan base f1 f2 st lm mc).1.2.callbacks = lm.callbacks
    ∧ (EnhancedMagenticManager.replan base f1 f2 st lm mc).1.2.session_id = lm.session_id
    ∧ ∃ tail, (EnhancedMagenticManager.replan base f1 f2 st lm mc).1.2.logs
        = lm.logs ++ tail := by
  cases hb : base st mc with
  | ok p =>
    obtain ⟨st', v⟩ := p
    refine ⟨fun s2 v2 h2 => ?_, fun e2 h2 => ?_, ?_, ?_, ?_⟩
    · simp only [Except.ok.injEq, Prod.mk.injEq] at h2
      obtain ⟨h4, h5⟩ := h2
      subst h4; subst h5
      refine ⟨?_, ?_⟩ <;> simp [EnhancedMagenticManager.replan, MagenticLoggingManager.log, hb]
    · exact Except.noConfusion h2
    · simp [EnhancedMagenticManager.replan, MagenticLoggingManager.log, hb]
    · simp [EnhancedMagenticManager.replan, MagenticLoggingManager.log, hb]
    · simp only [EnhancedMagenticManager.replan, MagenticLoggingManager.log, hb]
      exact ⟨_, List.append_assoc _ _ _⟩
  | error e =>
    refine ⟨fun s2 v2 h2 => ?_, fun e2 h2 => ?_, ?_, ?_, ?_⟩
    · exact Except.noConfusion h2
    · injection h2 with h3
      subst h3
      refine ⟨?_, ?_⟩ <;> simp [EnhancedMagenticManager.replan, MagenticLoggingManager.log, hb]
    · simp [EnhancedMagenticManager.replan, MagenticLoggingManager.log, hb]
    · simp [EnhancedMagenticManager.replan, MagenticLoggingManager.log, hb]
    · simp only [EnhancedMagenticManager.replan, MagenticLoggingManager.log, hb]
      exact ⟨_, List.append_assoc _ _ _⟩

lemma enhanced_create_progress_ledger_refines (base : BaseManagerOp ProgressLedger)
    (f1 f2 : String × Nat) (st : StandardMagenticManagerState)
    (lm : MagenticLoggingManager) (mc : MagenticContext) :
    (∀ st' v, base st mc = .ok (st', v) →
        (EnhancedMagenticManager.create_progress_ledger base f1 f2 st lm mc).2 = .ok v
        ∧ (EnhancedMagenticManager.create_progress_ledger base f1 f2 st lm mc).1.1 = st')
    ∧ (∀ e, base st mc = .error e →
        (EnhancedMagenticManager.create_progress_ledger base f1 f2 st lm mc).2 = .error e
        ∧ (EnhancedMagenticManager.create_progress_ledger base f1 f2 st lm mc).1.1 = st)
    ∧ (EnhancedMagenticManager.create_progress_ledger base f1 f2 st lm mc).1.2.callbacks = lm.callbacks
    ∧ (EnhancedMagenticManager.create_progress_ledger base f1 f2 st lm mc).1.2.session_id = lm.session_id
    ∧ ∃ tail, (EnhancedMagenticManager.create_progress_ledger base f1 f2 st lm mc).1.2.logs
        = lm.logs ++ tail := by
  cases hb : base st mc with
  | ok p =>
    obtain ⟨st', v⟩ := p
    refine ⟨fun s2 v2 h2 => ?_, fun e2 h2 => ?_, ?_, ?_, ?_⟩
    · simp only [Except.ok.injEq, Prod.mk.injEq] at h2
      obtain ⟨h4, h5⟩ := h2
      subst h4; subst h5
      refine ⟨?_, ?_⟩ <;> simp [EnhancedMagenticManager.create_progress_ledger, MagenticLoggingManager.log, hb]
    · exact Except.noConfusion h2
    · simp [EnhancedMagenticManager.create_progress_ledger, MagenticLoggingManager.log, hb]
    · simp [EnhancedMagenticManager.create_progress_ledger, MagenticLoggingManager.log, hb]
    · simp only [EnhancedMagenticManager.create_progress_ledger, MagenticLoggingManager.log, hb]
      exact ⟨_, List.append_assoc _ _ _⟩
  | error e =>
    refine ⟨fun s2 v2 h2 => ?_, fun e2 h2 => ?_, ?_, ?_, ?_⟩
    · exact Except.noConfusion h2
    · injection h2 with h3
      subst h3
      refine ⟨?_, ?_⟩ <;> simp [EnhancedMagenticManager.create_progress_ledger, MagenticLoggingManager.log, hb]
    · simp [EnhancedMagenticManager.create_progress_ledger, MagenticLoggingManager.log, hb]
    · simp [EnhancedMagenticManager.create_progress_ledger, MagenticLoggingManager.log, hb]
    · simp only [EnhancedMagenticManager.create_progress_ledger, MagenticLoggingManager.log, hb]
      exact ⟨_, List.append_assoc _ _ _⟩

lemma enhanced_prepare_final_answer_refines (base : BaseManagerOp ChatMessageContent)
    (f1 f2 : String × Nat) (st : StandardMagenticManagerState)
    (lm : MagenticLoggingManager) (mc : MagenticContext) :
    (∀ st' v, base st mc = .ok (st', v) →
        (EnhancedMagenticManager.prepare_final_answer base f1 f2 st lm mc).2 = .ok v
        ∧ (EnhancedMagenticManager.prepare_final_answer base f1 f2 st lm mc).1.1 = st')
    ∧ (∀ e, base st mc = .error e →
        (EnhancedMagenticManager.prepare_final_answer base f1 f2 st lm mc).2 = .error e
        ∧ (EnhancedMagenticManager.prepare_final_answer base f1 f2 st lm mc).1.1 = st)
    ∧ (EnhancedMagenticManager.prepare_final_answer base f1 f2 st lm mc).1.2.callbacks = lm.callbacks
    ∧ (EnhancedMagenticManager.prepare_final_answer base f1 f2 st lm mc).1.2.session_id = lm.session_id
    ∧ ∃ tail, (EnhancedMagenticManager.prepare_final_answer base f1 f2 st lm mc).1.2.logs
        = lm.logs ++ tail := by
  cases hb : base st mc with
  | ok p =>
    obtain ⟨st', v⟩ := p
    refine ⟨fun s2 v2 h2 => ?_, fun e2 h2 => ?_, ?_, ?_, ?_⟩
    · simp only [Except.ok.injEq, Prod.mk.injEq] at h2
      obtain ⟨h4, h5⟩ := h2
      subst h4; subst h5
      refine ⟨?_, ?_⟩ <;> simp [EnhancedMagenticManager.prepare_final_answer, MagenticLoggingManager.log, hb]
    · exact Except.noConfusion h2
    · simp [EnhancedMagenticManager.prepare_final_answer, MagenticLoggingManager.log, hb]
    · simp [EnhancedMagenticManager.prepare_final_answer, MagenticLoggingManager.log, hb]
    · simp only [EnhancedMagenticManager.prepare_final_answer, MagenticLoggingManager.log, hb]
      exact ⟨_, List.append_assoc _ _ _⟩
  | error e =>
    refine ⟨fun s2 v2 h2 => ?_, fun e2 h2 => ?_, ?_, ?_, ?_⟩
    · exact Except.noConfusion h2
    · injection h2 with h3
      subst h3
      refine ⟨?_, ?_⟩ <;> simp [EnhancedMagenticManager.prepare_final_answer, MagenticLoggingManager.log, hb]
    · simp [EnhancedMagenticManager.prepare_final_answer, MagenticLoggingManager.log, hb]
    · simp [EnhancedMagenticManager.prepare_final_answer, MagenticLoggingManager.log, hb]
    · simp only [EnhancedMagenticManager.prepare_final_answer, MagenticLoggingManager.log, hb]
      exact ⟨_, List.append_assoc _ _ _⟩

/-- C1: each enhanced manager operation (`plan`, `replan`,
`create_progress_ledger`, `prepare_final_answer`) returns exactly the
value returned by the corresponding `StandardMagenticManager` base
operation on that context, adopts exactly the base operation's state
update (unchanged when the base raises), and changes nothing else beyond
appending log entries: the logging manager's callback registry and session
are untouched and its log list is only extended. -/
theorem c1_enhanced_ops_refine_base :
    ∀ (basePlan baseReplan baseFinal : BaseManagerOp ChatMessageContent)
      (baseLedger : BaseManagerOp ProgressLedger)
      (f1 f2 : String × Nat) (st : StandardMagenticManagerState)
      (lm : MagenticLoggingManager) (mc : MagenticContext),
      ((∀ st' v, basePlan st mc = .ok (st', v) →
          (EnhancedMagenticManager.plan basePlan f1 f2 st lm mc).2 = .ok v
          ∧ (EnhancedMagenticManager.plan basePlan f1 f2 st lm mc).1.1 = st')
        ∧ (∀ e, basePlan st mc = .error e →
          (EnhancedMagenticManager.plan basePlan f1 f2 st lm mc).2 = .error e
          ∧ (EnhancedMagenticManager.plan basePlan f1 f2 st lm mc).1.1 = st)
        ∧ (EnhancedMagenticManager.plan basePlan f1 f2 st lm mc).1.2.callbacks = lm.callbacks
        ∧ (EnhancedMagenticManager.plan basePlan f1 f2 st lm mc).1.2.session_id = lm.session_id
        ∧ ∃ tail, (EnhancedMagenticManager.plan basePlan f1 f2 st lm mc).1.2.logs
            = lm.logs ++ tail)
      ∧ ((∀ st' v, baseReplan st mc = .ok (st', v) →
          (EnhancedMagenticManager.replan baseReplan f1 f2 st lm mc).2 = .ok v
          ∧ (EnhancedMagenticManager.replan baseReplan f1 f2 st lm mc).1.1 = st')
        ∧ (∀ e, baseReplan st mc = .error e →
          (EnhancedMagenticManager.replan baseReplan f1 f2 st lm mc).2 = .error e
          ∧ (EnhancedMagenticManager.replan baseReplan f1 f2 st lm mc).1.1 = st)
        ∧ (EnhancedMagenticManager.replan baseReplan f1 f2 st lm mc).1.2.callbacks = lm.callbacks
        ∧ (EnhancedMagenticManager.replan baseReplan f1 f2 st lm mc).1.2.session_id = lm.session_id
        ∧ ∃ tail, (EnhancedMagenticManager.replan baseReplan f1 f2 st lm mc).1.2.logs
            = lm.logs ++ tail)
      ∧ ((∀ st' v, baseLedger st mc = .ok (st', v) →
          (EnhancedMagenticManager.create_progress_ledger baseLedger f1 f2 st lm mc).2 = .ok v
          ∧ (EnhancedMagenticManager.create_progress_ledger baseLedger f1 f2 st lm mc).1.1 = st')
        ∧ (∀ e, baseLedger st mc = .error e →
          (EnhancedMagenticManager.create_progress_ledger baseLedger f1 f2 st lm mc).2 = .error e
          ∧ (EnhancedMagenticManager.create_progress_ledger baseLedger f1 f2 st lm mc).1.1 = st)
        ∧ (EnhancedMagenticManager.create_progress_ledger baseLedger f1 f2 st lm mc).1.2.callbacks
            = lm.callbacks
        ∧ (EnhancedMagenticManager.create_progress_ledger baseLedger f1 f2 st lm mc).1.2.session_id
            = lm.session_id
        ∧ ∃ tail, (EnhancedMagenticManager.create_progress_ledger baseLedger f1 f2 st lm mc).1.2.logs
            = lm.logs ++ tail)
      ∧ ((∀ st' v, baseFinal st mc = .ok (st', v) →
          (EnhancedMagenticManager.prepare_final_answer baseFinal f1 f2 st lm mc).2 = .ok v
          ∧ (EnhancedMagenticManager.prepare_final_answer baseFinal f1 f2 st lm mc).1.1 = st')
        ∧ (∀ e, baseFinal st mc = .error e →
          (EnhancedMagenticManager.prepare_final_answer baseFinal f1 f2 st lm mc).2 = .error e
          ∧ (EnhancedMagenticManager.prepare_final_answer baseFinal f1 f2 st lm mc).1.1 = st)
        ∧ (EnhancedMagenticManager.prepare_final_answer baseFinal f1 f2 st lm mc).1.2.callbacks
            = lm.callbacks
        ∧ (EnhancedMagenticManager.prepare_final_answer baseFinal f1 f2 st lm mc).1.2.session_id
            = lm.session_id
        ∧ ∃ tail, (EnhancedMagenticManager.prepare_final_answer baseFinal f1 f2 st lm mc).1.2.logs
            = lm.logs ++ tail) := by
  intro basePlan baseReplan baseFinal baseLedger f1 f2 st lm mc
  exact ⟨enhanced_plan_refines basePlan f1 f2 st lm mc,
    enhanced_replan_refines baseReplan f1 f2 st lm mc,
    enhanced_create_progress_ledger_refines baseLedger f1 f2 st lm mc,
    enhanced_prepare_final_answer_refines baseFinal f1 f2 st lm mc⟩

/-- C1 witness: on a successful base plan the enhanced plan returns the
base answer and adopts the base task ledger; on a raising base
final-answer operation the enhanced wrapper re-raises. -/
theorem c1_enhanced_ops_refine_base_witness :
    (EnhancedMagenticManager.plan okBase ("a", 0) ("b", 1) ⟨none⟩ sampleManager
        sampleContext).2 = .ok ⟨"answer"⟩
    ∧ (EnhancedMagenticManager.prepare_final_answer failingBase ("a", 0) ("b", 1) ⟨none⟩
        sampleManager sampleContext).2 = .error ⟨"ValueError", "boom"⟩ :=
  ⟨((c1_enhanced_ops_refine_base okBase okBase failingBase failingLedgerBase ("a", 0) ("b", 1)
      ⟨none⟩ sampleManager sampleContext).1.1 ⟨some ⟨⟨"facts"⟩, ⟨"plan"⟩⟩⟩ ⟨"answer"⟩ rfl).1,
   ((c1_enhanced_ops_refine_base okBase okBase failingBase failingLedgerBase ("a", 0) ("b", 1)
      ⟨none⟩ sampleManager sampleContext).2.2.2.2.1 ⟨"ValueError", "boom"⟩ rfl).1⟩

/-- C3: when the base operation raises, each enhanced manager operation
re-raises that same exception to its caller — no retry, no fallback result
— and the last log entry appended beforehand is an ERROR-level
ERROR_MESSAGE entry whose message records the exception text. -/
theorem c3_errors_logged_and_reraised :
    ∀ (basePlan baseReplan baseFinal : BaseManagerOp ChatMessageContent)
      (baseLedger : BaseManagerOp ProgressLedger)
      (f1 f2 : String × Nat) (st : StandardMagenticManagerState)
      (lm : MagenticLoggingManager) (mc : MagenticContext) (e : PyExn),
      (basePlan st mc = .error e →
        (EnhancedMagenticManager.plan basePlan f1 f2 st lm mc).2 = .error e
        ∧ ∃ earlier errE,
            (EnhancedMagenticManager.plan basePlan f1 f2 st lm mc).1.2.logs
              = lm.logs ++ earlier ++ [errE]
            ∧ errE.level = .ERROR ∧ errE.log_type = .ERROR_MESSAGE
            ∧ errE.message = "Error during task planning: " ++ e.msg)
      ∧ (baseReplan st mc = .error e →
        (EnhancedMagenticManager.replan baseReplan f1 f2 st lm mc).2 = .error e
        ∧ ∃ earlier errE,
            (EnhancedMagenticManager.replan baseReplan f1 f2 st lm mc).1.2.logs
              = lm.logs ++ earlier ++ [errE]
            ∧ errE.level = .ERROR ∧ errE.log_type = .ERROR_MESSAGE
            ∧ errE.message = "Error during task replanning: " ++ e.msg)
      ∧ (baseLedger st mc = .error e →
        (EnhancedMagenticManager.create_progress_ledger baseLedger f1 f2 st lm mc).2 = .error e
        ∧ ∃ earlier errE,
            (EnhancedMagenticManager.create_progress_ledger baseLedger f1 f2 st lm mc).1.2.logs
              = lm.logs ++ earlier ++ [errE]
            ∧ errE.level = .ERROR ∧ errE.log_type = .ERROR_MESSAGE
            ∧ errE.message = "Error creating progress ledger: " ++ e.msg)
      ∧ (baseFinal st mc = .error e →
        (EnhancedMagenticManager.prepare_final_answer baseFinal f1 f2 st lm mc).2 = .error e
        ∧ ∃ earlier errE,
            (EnhancedMagenticManager.prepare_final_answer baseFinal f1 f2 st lm mc).1.2.logs
              = lm.logs ++ earlier ++ [errE]
            ∧ errE.level = .ERROR ∧ errE.log_type = .ERROR_MESSAGE
            ∧ errE.message = "Error preparing final answer: " ++ e.msg) := by
  intro basePlan baseReplan baseFinal baseLedger f1 f2 st lm mc e
  refine ⟨fun h => ?_, fun h => ?_, fun h => ?_, fun h => ?_⟩
  · simp only [EnhancedMagenticManager.plan, MagenticLoggingManager.log, h]
    exact ⟨trivial, _, _, rfl, rfl, rfl, rfl⟩
  · simp only [EnhancedMagenticManager.replan, MagenticLoggingManager.log, h]
    exact ⟨trivial, _, _, rfl, rfl, rfl, rfl⟩
  · simp only [EnhancedMagenticManager.create_progress_ledger, MagenticLoggingManager.log, h]
    exact ⟨trivial, _, _, rfl, rfl, rfl, rfl⟩
  · simp only [EnhancedMagenticManager.prepare_final_answer, MagenticLoggingManager.log, h]
    exact ⟨trivial, _, _, rfl, rfl, rfl, rfl⟩

/-- C3 witness: a base plan raising ValueError "boom" makes the enhanced
plan re-raise exactly that exception. -/
theorem c3_errors_logged_and_reraised_witness :
    (EnhancedMagenticManager.plan failingBase ("a", 0) ("b", 1) ⟨none⟩ sampleManager
        sampleContext).2 = .error ⟨"ValueError", "boom"⟩ :=
  ((c3_errors_logged_and_reraised failingBase failingBase failingBase failingLedgerBase
      ("a", 0) ("b", 1) ⟨none⟩ sampleManager sampleContext ⟨"ValueError", "boom"⟩).1 rfl).1

/-- C6: in every transition of the state machine, `reset_count` never
decreases and grows by at most one; outer-reset handling increments it by
exactly one and nothing else changes it; within an outer iteration (an
inner-loop transition staying in the inner loop) `round_count` strictly
increases; a completed outer-loop reset re-enters the inner loop with
`round_count` cleared to 0; and the inner loop restarts at `round_count`
0 only through an outer-loop reset. -/
theorem c6_counter_invariants :
    ∀ (cfg : OrchestrationConfig) (oracle : ManagerOracle) (s : MachineState),
      (s.ctx.reset_count ≤ (stepMachine cfg oracle s).ctx.reset_count
        ∧ (stepMachine cfg oracle s).ctx.reset_count ≤ s.ctx.reset_count + 1)
      ∧ (s.phase = .OuterReset →
          (stepMachine cfg oracle s).ctx.reset_count = s.ctx.reset_count + 1)
      ∧ (s.phase ≠ .OuterReset →
          (stepMachine cfg oracle s).ctx.reset_count = s.ctx.reset_count)
      ∧ (s.phase = .InnerLoop → (stepMachine cfg oracle s).phase = .InnerLoop →
          s.ctx.round_count < (stepMachine cfg oracle s).ctx.round_count)
      ∧ (s.phase = .OuterReset → (stepMachine cfg oracle s).phase = .InnerLoop →
          (stepMachine cfg oracle s).ctx.round_count = 0)
      ∧ ((stepMachine cfg oracle s).phase = .InnerLoop →
          (stepMachine cfg oracle s).ctx.round_count = 0 →
          s.ctx.round_count = 0 ∨ s.phase = .OuterReset) := by
  intro cfg oracle s
  obtain ⟨p, c⟩ := s
  refine ⟨stepMachine_reset_bounds cfg oracle ⟨p, c⟩, ?_, ?_, ?_, ?_, ?_⟩
  · intro h
    cases p
    case OuterReset => simp only [stepMachine]; split <;> rfl
    all_goals exact Phase.noConfusion h
  · intro h
    cases p
    case Planning => rfl
    case FinalAnswer => rfl
    case OuterReset => exact absurd rfl h
    case InnerLoop =>
      simp only [stepMachine]
      repeat' split
      all_goals rfl
  · intro h1 h2
    cases p
    case InnerLoop =>
      simp only [stepMachine] at h2 ⊢
      repeat' split at h2
      all_goals try simp_all
      all_goals repeat' split
      all_goals try simp_all
      all_goals omega
    all_goals exact Phase.noConfusion h1
  · intro h1 h2
    cases p
    case OuterReset =>
      simp only [stepMachine] at h2 ⊢
      split at h2
      · exact Phase.noConfusion h2
      · rename_i hg
        simp only [if_neg hg]
    all_goals exact Phase.noConfusion h1
  · intro h1 h2
    cases p
    case Planning =>
      simp only [stepMachine] at h2
      exact Or.inl h2
    case OuterReset => exact Or.inr rfl
    case FinalAnswer => exact Phase.noConfusion h1
    case InnerLoop =>
      simp only [stepMachine] at h1 h2
      repeat' split at h1
      all_goals simp_all

/-- C6 witness: handling a concrete outer-reset state increments the reset
counter by exactly one, and a concrete inner-loop step under a stalling
manager stays in the inner loop with a strictly larger round counter. -/
theorem c6_counter_invariants_witness :
    (stepMachine roomyConfig alwaysStallingOracle outerResetState).ctx.reset_count
        = outerResetState.ctx.reset_count + 1
    ∧ outerResetState.ctx.reset_count
        ≤ (stepMachine roomyConfig alwaysStallingOracle outerResetState).ctx.reset_count
    ∧ innerLoopState.ctx.round_count
        < (stepMachine roomyConfig alwaysStallingOracle innerLoopState).ctx.round_count :=
  ⟨(c6_counter_invariants roomyConfig alwaysStallingOracle outerResetState).2.1 rfl,
   (c6_counter_invariants roomyConfig alwaysStallingOracle outerResetState).1.1,
   (c6_counter_invariants roomyConfig alwaysStallingOracle innerLoopState).2.2.2.1 rfl
     (by decide)⟩

/-- C7: once `reset_count` has reached the configured maximum, the run is
forced to FinalAnswer: within the explicit step bound the machine is in
the terminal FinalAnswer phase, and no step of the run ever completes
another outer-loop reset — for every manager judgment, including one that
always reports the request unsatisfied and progress absent. -/
theorem c7_reset_budget_forces_final_answer :
    ∀ (cfg : OrchestrationConfig) (oracle : ManagerOracle) (s : MachineState),
      MachineInv cfg s → cfg.reset_max ≤ s.ctx.reset_count →
      (runSteps cfg oracle (machineBound cfg) s).phase = .FinalAnswer
      ∧ ∀ k, ¬ ((runSteps cfg oracle k s).phase = .OuterReset
          ∧ (runSteps cfg oracle (k + 1) s).phase = .InnerLoop) := by
  intro cfg oracle s hinv hr
  refine ⟨runSteps_terminates cfg oracle _ s hinv (machineMeasure_le_bound cfg s), fun k => ?_⟩
  have hinv2 := machineInv_runSteps cfg oracle k s hinv
  have hmono := runSteps_reset_mono cfg oracle k s
  exact no_reset_step_of_max cfg oracle _ hinv2 (le_trans hr hmono)

/-- C7 witness: from a concrete inner-loop state whose reset counter sits
at the maximum, the always-stalling manager run reaches FinalAnswer within
the step bound and never completes another reset. -/
theorem c7_reset_budget_forces_final_answer_witness :
    (runSteps tinyConfig alwaysStallingOracle (machineBound tinyConfig)
        maxedInnerState).phase = .FinalAnswer
    ∧ ¬ ((runSteps tinyConfig alwaysStallingOracle 0 maxedInnerState).phase = .OuterReset
        ∧ (runSteps tinyConfig alwaysStallingOracle 1 maxedInnerState).phase = .InnerLoop) := by
  have h := c7_reset_budget_forces_final_answer tinyConfig alwaysStallingOracle maxedInnerState
    ⟨fun hx => Phase.noConfusion hx, fun _ => ⟨by decide, by decide⟩,
      fun hx => Phase.noConfusion hx⟩ (by decide)
  exact ⟨h.1, h.2 0⟩

lemma limitTruncate_sublist (lim : Option Int) (l : List LogEntry) :
    (limitTruncate lim l).Sublist l := by
  cases lim with
  | none => exact List.Sublist.refl l
  | some n =>
    simp only [limitTruncate]
    split
    · exact List.Sublist.refl l
    · split <;> exact List.drop_sublist _ _

/-- C8 counterexample: with the single stored entry authored by "writer",
requesting logs filtered by the empty agent name returns that entry even
though its agent name is not the empty string — the supplied filter is
silently skipped by Python truthiness, so `get_logs` does not return only
the entries satisfying all supplied filters. -/
theorem c8_counterexample_empty_agent_filter_skipped :
    MagenticLoggingManager.get_logs sampleManager none none (some "") none = [sampleEntry]
    ∧ sampleEntry.agent_name ≠ some "" := by
  exact ⟨rfl, by decide⟩


lemma get_logs_filters (m : MagenticLoggingManager) (level : Option LogLevel)
    (lt : Option LogType) (an : Option String) :
    MagenticLoggingManager.get_logs m level lt an none
      = m.logs.filter (matchesFilters level lt an) := by
  cases level <;> cases lt <;> cases an
  all_goals simp [MagenticLoggingManager.get_logs, Bool.and_comm, Bool.and_left_comm,
    Bool.and_assoc]
  case none.none.none =>
    exact ((List.filter_congr fun x _ => by
      simp [matchesFilters]).trans (List.filter_true _)).symm
  case none.none.some a =>
    split_ifs with ha
    · exact ((List.filter_congr fun x _ => by
        simp [matchesFilters, ha]).trans (List.filter_true _)).symm
    · exact List.filter_congr fun x _ => by simp [matchesFilters, ha]
  case none.some.none =>
    exact List.filter_congr fun x _ => by simp [matchesFilters]
  case none.some.some t a =>
    split_ifs with ha
    · exact List.filter_congr fun x _ => by simp [matchesFilters, ha]
    · exact List.filter_congr fun x _ => by simp [matchesFilters, ha]
  case some.none.none =>
    exact List.filter_congr fun x _ => by simp [matchesFilters]
  case some.none.some lv a =>
    split_ifs with ha
    · exact List.filter_congr fun x _ => by simp [matchesFilters, ha]
    · exact List.filter_congr fun x _ => by simp [matchesFilters, ha]
  case some.some.none =>
    exact List.filter_congr fun x _ => by
      simp [matchesFilters, Bool.and_comm, Bool.and_left_comm, Bool.and_assoc]
  case some.some.some lv t a =>
    split_ifs with ha
    · exact List.filter_congr fun x _ => by
        simp [matchesFilters, ha, Bool.and_comm, Bool.and_left_comm, Bool.and_assoc]
    · exact List.filter_congr fun x _ => by
        simp [matchesFilters, ha, Bool.and_comm, Bool.and_left_comm, Bool.and_assoc]

lemma get_logs_limit_split (m : MagenticLoggingManager) (level : Option LogLevel)
    (lt : Option LogType) (an : Option String) (n : Int) :
    MagenticLoggingManager.get_logs m level lt an (some n)
      = if n == 0 then MagenticLoggingManager.get_logs m level lt an none
        else pySliceLast (MagenticLoggingManager.get_logs m level lt an none) n := rfl

/-- C8 amended: `get_logs` returns, in insertion order, exactly the stored
entries matching every supplied filter — except that a supplied
empty-string agent-name filter is ignored — truncated to the last `limit`
entries for a positive limit and untruncated for a missing or zero limit
(a negative limit drops that many leading entries, per Python slicing);
the result is always a sublist of the stored log list, which is never
mutated. -/
theorem c8_amended_get_logs_characterization :
    ∀ (m : MagenticLoggingManager) (level : Option LogLevel) (log_type : Option LogType)
      (agent_name : Option String) (limit : Option Int),
      MagenticLoggingManager.get_logs m level log_type agent_name limit
          = limitTruncate limit (m.logs.filter (matchesFilters level log_type agent_name))
      ∧ (MagenticLoggingManager.get_logs m level log_type agent_name limit).Sublist m.logs := by
  intro m level lt an lim
  have h1 : MagenticLoggingManager.get_logs m level lt an lim
      = limitTruncate lim (m.logs.filter (matchesFilters level lt an)) := by
    cases lim with
    | none => rw [get_logs_filters]; rfl
    | some n =>
      rw [get_logs_limit_split, get_logs_filters]
      by_cases h : n = 0
      · simp [h, limitTruncate]
      · simp [h, limitTruncate, pySliceLast]
  refine ⟨h1, ?_⟩
  rw [h1]
  exact (limitTruncate_sublist lim _).trans (List.filter_sublist _)
